import Mathlib

/-
Verification of the `inliner` CSS-to-inline-style engine.

Shallow embedding conventions:
* Go strings are modelled as `List Char` (`Str`); Go byte/rune indexing and
  `sort.Strings` lexicographic order coincide with the codepoint order on
  `List Char` for the ASCII inputs the engine manipulates.
* Go maps (`map[string]Declaration` and friends) are modelled as association
  lists; insertion (`m[k] = v`) replaces in place or appends.  Where Go's
  unspecified map iteration order matters the functions take the enumeration
  as an explicit list, so "two runs on equal maps" corresponds to running the
  function on two permutations of the same association list.
* The Go regexes of `internal/css/parser.go` are embedded as explicit
  character scanners with RE2 leftmost-match semantics, documented at each
  definition.
-/

set_option maxRecDepth 8000

namespace Inliner

/-- Go strings, modelled as lists of characters. -/
abbrev Str := List Char

/-- Conversion from Lean string literals to the `Str` model. -/
def str (s : String) : Str := s.toList

/-- The double-quote character (Go `'"'`). -/
def dquoteC : Char := Char.ofNat 34

/-- The single-quote character (Go `'\x27'`). -/
def squoteC : Char := Char.ofNat 39

/-- Go `unicode.IsSpace`: Unicode white space, used by `strings.TrimSpace`. -/
def goIsSpace (c : Char) : Bool :=
  c = ' ' || c = Char.ofNat 9 || c = Char.ofNat 10 || c = Char.ofNat 11 ||
  c = Char.ofNat 12 || c = Char.ofNat 13 || c.toNat = 0x85 || c.toNat = 0xa0 ||
  c.toNat = 0x1680 || (0x2000 ≤ c.toNat && c.toNat ≤ 0x200a) ||
  c.toNat = 0x2028 || c.toNat = 0x2029 || c.toNat = 0x202f ||
  c.toNat = 0x205f || c.toNat = 0x3000

/-- RE2 `\s`: exactly the characters `[\t\n\f\r ]`. -/
def reWS (c : Char) : Bool :=
  c = Char.ofNat 9 || c = Char.ofNat 10 || c = Char.ofNat 12 ||
  c = Char.ofNat 13 || c = ' '

/-- ASCII letter, the class `[a-zA-Z]` of the element-name regex. -/
def isAsciiAlpha (c : Char) : Bool :=
  ('a' ≤ c && c ≤ 'z') || ('A' ≤ c && c ≤ 'Z')

/-- ASCII digit. -/
def isDigitC (c : Char) : Bool := '0' ≤ c && c ≤ '9'

/-- The identifier class `[a-zA-Z0-9_-]` used by the specificity regexes. -/
def isIdentC (c : Char) : Bool :=
  isAsciiAlpha c || isDigitC c || c = '_' || c = '-'

/-- RE2 word character (`\w`, the class deciding `\b` boundaries). -/
def isWordC (c : Char) : Bool :=
  isAsciiAlpha c || isDigitC c || c = '_'

/-- Drop matching characters from the right end of a list. -/
def rdropWhile (p : Char → Bool) (l : Str) : Str :=
  (l.reverse.dropWhile p).reverse

/-- Go `strings.TrimSpace`. -/
def trimSpace (l : Str) : Str :=
  rdropWhile goIsSpace (l.dropWhile goIsSpace)

/-- Go `strings.ToLower`, restricted to its ASCII case mapping (the inputs
the engine lowercases are ASCII CSS identifiers). -/
def lowerStr (l : Str) : Str := l.map Char.toLower

/-! ### Association lists: the model of Go string-keyed maps -/

/-- Lookup in an association list (Go `v, ok := m[k]`). -/
def lookupA {α : Type} : Str → List (Str × α) → Option α
  | _, [] => none
  | p, (k, v) :: rest => if k = p then some v else lookupA p rest

/-- Insert-or-replace (Go `m[k] = v`). -/
def insertA {α : Type} (p : Str) (v : α) : List (Str × α) → List (Str × α)
  | [] => [(p, v)]
  | (k, w) :: rest => if k = p then (p, v) :: rest else (k, w) :: insertA p v rest

/-- The key list of an association list. -/
def keysA {α : Type} : List (Str × α) → List Str
  | [] => []
  | (k, _) :: rest => k :: keysA rest

@[simp]
theorem keysA_nil {α : Type} : keysA ([] : List (Str × α)) = [] := rfl

@[simp]
theorem keysA_cons {α : Type} (k : Str) (w : α) (rest : List (Str × α)) :
    keysA ((k, w) :: rest) = k :: keysA rest := rfl

theorem lookupA_insertA_self {α : Type} (p : Str) (v : α) (l : List (Str × α)) :
    lookupA p (insertA p v l) = some v := by
  induction l with
  | nil => simp [insertA, lookupA]
  | cons kw rest ih =>
    obtain ⟨k, w⟩ := kw
    by_cases h : k = p <;> simp [insertA, lookupA, h, ih]

theorem lookupA_insertA_ne {α : Type} (p q : Str) (v : α) (l : List (Str × α))
    (h : p ≠ q) : lookupA q (insertA p v l) = lookupA q l := by
  induction l with
  | nil => simp [insertA, lookupA, h]
  | cons kw rest ih =>
    obtain ⟨k, w⟩ := kw
    by_cases hk : k = p
    · subst hk
      simp [insertA, lookupA, h]
    · simp [insertA, lookupA, hk, ih]

theorem keysA_insertA_mem {α : Type} (p : Str) (v : α) (l : List (Str × α))
    (h : p ∈ keysA l) : keysA (insertA p v l) = keysA l := by
  induction l with
  | nil => simp at h
  | cons kw rest ih =>
    obtain ⟨k, w⟩ := kw
    by_cases hk : k = p
    · simp [insertA, hk]
    · have hmem : p ∈ keysA rest := by
        rcases (by simpa using h) with h' | h'
        · exact absurd h'.symm hk
        · exact h'
      simp [insertA, hk, ih hmem]

theorem keysA_insertA_not_mem {α : Type} (p : Str) (v : α) (l : List (Str × α))
    (h : ¬ p ∈ keysA l) : keysA (insertA p v l) = keysA l ++ [p] := by
  induction l with
  | nil => simp [insertA]
  | cons kw rest ih =>
    obtain ⟨k, w⟩ := kw
    by_cases hk : k = p
    · exact absurd (by simp [hk]) h
    · have hmem : ¬ p ∈ keysA rest := fun hc => h (by simp [hc])
      simp [insertA, hk, ih hmem]

theorem mem_keysA_insertA {α : Type} (p q : Str) (v : α) (l : List (Str × α)) :
    q ∈ keysA (insertA p v l) ↔ q = p ∨ q ∈ keysA l := by
  by_cases h : p ∈ keysA l
  · rw [keysA_insertA_mem p v l h]
    constructor
    · exact Or.inr
    · rintro (rfl | hq)
      · exact h
      · exact hq
  · rw [keysA_insertA_not_mem p v l h]
    simp [or_comm]

theorem nodup_keysA_insertA {α : Type} (p : Str) (v : α) (l : List (Str × α))
    (h : (keysA l).Nodup) : (keysA (insertA p v l)).Nodup := by
  by_cases hp : p ∈ keysA l
  · rwa [keysA_insertA_mem p v l hp]
  · rw [keysA_insertA_not_mem p v l hp]
    simpa [List.nodup_append] using ⟨h, fun hc => hp hc⟩

theorem lookupA_isSome_iff_mem_keysA {α : Type} (p : Str) (l : List (Str × α)) :
    (lookupA p l).isSome ↔ p ∈ keysA l := by
  induction l with
  | nil => simp [lookupA]
  | cons kw rest ih =>
    obtain ⟨k, w⟩ := kw
    by_cases hk : k = p
    · simp [lookupA, hk]
    · have hk' : p ≠ k := fun hc => hk hc.symm
      simp [lookupA, hk, hk', ih]

theorem lookupA_cons_self {α : Type} (k : Str) (v : α) (rest : List (Str × α)) :
    lookupA k ((k, v) :: rest) = some v := by
  simp [lookupA]

theorem lookupA_cons_ne {α : Type} (k : Str) (v : α) (rest : List (Str × α))
    (q : Str) (h : k ≠ q) : lookupA q ((k, v) :: rest) = lookupA q rest := by
  simp [lookupA, h]

theorem lookupA_eq_none_of_not_mem {α : Type} (p : Str) (l : List (Str × α))
    (h : ¬ p ∈ keysA l) : lookupA p l = none := by
  cases hl : lookupA p l with
  | none => rfl
  | some v =>
    exact absurd ((lookupA_isSome_iff_mem_keysA p l).1 (by simp [hl])) h

/-! ### CSS data model (`internal/css/types.go`) -/

/-- `css.Specificity`: the four counters plus the `Important` flag. -/
structure Specificity where
  Inline : Nat
  IDs : Nat
  Classes : Nat
  Elements : Nat
  Important : Bool
deriving DecidableEq, Repr

/-- `css.Declaration`: a property/value pair with its `!important` flag. -/
structure Declaration where
  Property : Str
  Value : Str
  Important : Bool
deriving DecidableEq, Repr

/-- The model of Go's `map[string]css.Declaration`. -/
abbrev Styles := List (Str × Declaration)

/-- `css.Rule`. -/
structure Rule where
  Selector : Str
  Specificity : Specificity
  Declarations : Styles
  SourceOrder : Nat
deriving DecidableEq, Repr

/-- `css.Stylesheet`. -/
structure Stylesheet where
  Rules : List Rule
deriving DecidableEq, Repr

/-- `css.MatchResult`: a matching rule together with the specificity and
declarations the resolver will apply. -/
structure MatchResult where
  Rule : Rule
  Specificity : Specificity
  Declarations : Styles
deriving DecidableEq, Repr

/-- `Specificity.Compare` from `types.go`: `!important` first, then the four
counters lexicographically; returns 1, -1 or 0. -/
def Specificity.Compare (s other : Specificity) : Int :=
  if s.Important && !other.Important then 1
  else if !s.Important && other.Important then -1
  else if s.Inline ≠ other.Inline then (if s.Inline > other.Inline then 1 else -1)
  else if s.IDs ≠ other.IDs then (if s.IDs > other.IDs then 1 else -1)
  else if s.Classes ≠ other.Classes then (if s.Classes > other.Classes then 1 else -1)
  else if s.Elements ≠ other.Elements then (if s.Elements > other.Elements then 1 else -1)
  else 0

/-- `css.SpecificityFromInline`: inline styles carry `(1000,0,0,0)`. -/
def SpecificityFromInline (important : Bool) : Specificity :=
  ⟨1000, 0, 0, 0, important⟩

/-! ### Declaration scanning (`internal/css/parser.go`)

`parseDeclarations` splits the block on unquoted `;`, splits each piece at
the first unquoted `:`, trims, detects the trailing `!important` marker with
the (case-sensitive) regex `!\s*important\s*$`, and lower-cases the
property. -/

/-- State of `smartSplit`'s single pass: emitted parts, the current piece
accumulated in reverse, and the quote-masking state. -/
structure SplitState where
  parts : List Str
  current : Str
  inQuotes : Bool
  quoteChar : Char
deriving Repr

/-- One character step of `smartSplit`, mirroring the Go `switch`. -/
def smartSplitStep (delimiter : Char) (st : SplitState) (c : Char) : SplitState :=
  if !st.inQuotes && (c = dquoteC || c = squoteC) then
    { st with inQuotes := true, quoteChar := c, current := c :: st.current }
  else if st.inQuotes && c = st.quoteChar then
    { st with inQuotes := false, current := c :: st.current }
  else if !st.inQuotes && c = delimiter then
    (if st.current ≠ [] then { st with parts := st.parts ++ [st.current.reverse], current := [] }
     else st)
  else
    { st with current := c :: st.current }

/-- `Parser.smartSplit`: split on a delimiter, ignoring delimiters inside
single- or double-quoted spans. -/
def smartSplit (s : Str) (delimiter : Char) : List Str :=
  let st := s.foldl (smartSplitStep delimiter) ⟨[], [], false, Char.ofNat 0⟩
  if st.current ≠ [] then st.parts ++ [st.current.reverse] else st.parts

/-- `Parser.findUnquotedChar`: index of the first unquoted occurrence, `none`
for Go's `-1`. -/
def findUnquotedAux (char : Char) : Str → Nat → Bool → Char → Option Nat
  | [], _, _, _ => none
  | c :: rest, i, inQ, qC =>
    if !inQ && (c = dquoteC || c = squoteC) then findUnquotedAux char rest (i + 1) true c
    else if inQ && c = qC then findUnquotedAux char rest (i + 1) false qC
    else if !inQ && c = char then some i
    else findUnquotedAux char rest (i + 1) inQ qC

def findUnquotedChar (s : Str) (char : Char) : Option Nat :=
  findUnquotedAux char s 0 false (Char.ofNat 0)

/-- The token `important` of the marker regex. -/
def importantWord : Str := str "important"

/-- Boolean prefix test on character lists. -/
def startsWithStr : Str → Str → Bool
  | [], _ => true
  | _ :: _, [] => false
  | a :: as, b :: bs => a = b && startsWithStr as bs

/-- The regex `!\s*important\s*$` read from the right end of the reversed
value: trailing `\s*`, then the literal `important`, then `\s*`, then the
`!`.  The regex is case-sensitive, so only lowercase `important` matches. -/
def matchImportantRev (r : Str) : Bool :=
  let r1 := r.dropWhile reWS
  if startsWithStr importantWord.reverse r1 then
    match (r1.drop importantWord.length).dropWhile reWS with
    | c :: _ => c = '!'
    | [] => false
  else false

/-- `importantRegex.MatchString` on a declaration value. -/
def matchImportantValue (value : Str) : Bool :=
  matchImportantRev value.reverse

/-- `importantRegex.ReplaceAllString(value, "")`: the unique match of the
`$`-anchored regex spans from the final `!` to the end, so replacing it keeps
exactly the prefix before that `!`. -/
def stripImportantValue (value : Str) : Str :=
  let r1 := value.reverse.dropWhile reWS
  let r2 := (r1.drop importantWord.length).dropWhile reWS
  (r2.drop 1).reverse

/-- Lines 122-127 of `parser.go`: detect the marker, and when present strip
it and re-trim the value. -/
def applyImportantMarker (value : Str) : Str × Bool :=
  if matchImportantValue value then (trimSpace (stripImportantValue value), true)
  else (value, false)

/-- The per-piece body of `Parser.parseDeclarations`'s loop. -/
def parseDeclStep (declarations : Styles) (part : Str) : Styles :=
  let part := trimSpace part
  if part = [] then declarations
  else
    match findUnquotedChar part ':' with
    | none => declarations
    | some colonIndex =>
      let property := trimSpace (part.take colonIndex)
      let value := trimSpace (part.drop (colonIndex + 1))
      if property = [] || value = [] then declarations
      else
        let vi := applyImportantMarker value
        let property := lowerStr property
        insertA property ⟨property, vi.1, vi.2⟩ declarations

/-- `Parser.parseDeclarations`. -/
def parseDeclarations (declarationsText : Str) : Styles :=
  (smartSplit declarationsText ';').foldl parseDeclStep []

/-- `Parser.ParseInlineStyle` reuses the declaration scanner. -/
def ParseInlineStyle (styleAttr : Str) : Styles :=
  parseDeclarations styleAttr

example :
    parseDeclarations (str "color: red; font-size: 14px") =
      [(str "color", ⟨str "color", str "red", false⟩),
       (str "font-size", ⟨str "font-size", str "14px", false⟩)] := by rfl

example :
    parseDeclarations (str "color: red !important") =
      [(str "color", ⟨str "color", str "red", true⟩)] := by rfl

example :
    parseDeclarations (str "color: blue; color: green") =
      [(str "color", ⟨str "color", str "green", false⟩)] := by rfl

/-! ### Specificity computation (`Parser.calculateSpecificity`)

Each Go regex of `NewParser` is embedded as a left-to-right scanner with
RE2's leftmost, non-overlapping match semantics. -/

/-- Scanner state for the marker-run regexes `#[a-zA-Z0-9_-]+`,
`\.[a-zA-Z0-9_-]+` and `:[a-zA-Z0-9_-]+`: completed matches, the current
match accumulated in reverse, and whether the previous character was an
unconsumed marker. -/
structure MarkerScan where
  found : List Str
  run : Str
  armed : Bool
deriving Repr

def markerRunStep (marker : Char) (st : MarkerScan) (c : Char) : MarkerScan :=
  if st.run ≠ [] then
    (if isIdentC c then { st with run := c :: st.run }
     else ⟨st.found ++ [st.run.reverse], [], c = marker⟩)
  else if st.armed then
    (if isIdentC c then { st with run := [c, marker], armed := false }
     else { st with armed := c = marker })
  else
    { st with armed := c = marker }

/-- `FindAllString` for a marker-run regex: the matched strings in order. -/
def markerRunMatches (marker : Char) (s : Str) : List Str :=
  let st := s.foldl (markerRunStep marker) ⟨[], [], false⟩
  if st.run ≠ [] then st.found ++ [st.run.reverse] else st.found

/-- Match count of the attribute regex `\[[^\]]*\]`. -/
def attrStep (st : Nat × Bool) (c : Char) : Nat × Bool :=
  if st.2 then (if c = ']' then (st.1 + 1, false) else st)
  else (if c = '[' then (st.1, true) else st)

def attrCount (s : Str) : Nat := (s.foldl attrStep (0, false)).1

/-- Scanner state for the pseudo-element regex `::[a-zA-Z0-9_-]+`. -/
inductive PEState where
  | idle
  | one
  | two
  | run
deriving DecidableEq, Repr

def pseudoElementStep (st : Nat × PEState) (c : Char) : Nat × PEState :=
  match st.2 with
  | .idle => (st.1, if c = ':' then .one else .idle)
  | .one => (st.1, if c = ':' then .two else .idle)
  | .two =>
    if isIdentC c then (st.1 + 1, .run)
    else (st.1, if c = ':' then .two else .idle)
  | .run =>
    if isIdentC c then (st.1, .run)
    else (st.1, if c = ':' then .one else .idle)

/-- Match count of the pseudo-element regex `::[a-zA-Z0-9_-]+`. -/
def pseudoElementCount (s : Str) : Nat :=
  (s.foldl pseudoElementStep (0, .idle)).1

/-- Scanner state for the element regex `\b[a-zA-Z]+\b`: a maximal ASCII
letter run matches exactly when the characters on both sides are not word
characters. -/
structure ElemScan where
  found : List Str
  run : Str
  runValid : Bool
  prevWord : Bool
deriving Repr

def elemStep (st : ElemScan) (c : Char) : ElemScan :=
  if isAsciiAlpha c then
    (if st.run ≠ [] then { st with run := c :: st.run, prevWord := true }
     else { st with run := [c], runValid := !st.prevWord, prevWord := true })
  else if st.run ≠ [] then
    ⟨if st.runValid && !isWordC c then st.found ++ [st.run.reverse] else st.found,
     [], false, isWordC c⟩
  else
    { st with prevWord := isWordC c }

/-- `FindAllString` for the element regex `\b[a-zA-Z]+\b`. -/
def elementMatches (s : Str) : List Str :=
  let st := s.foldl elemStep ⟨[], [], false, false⟩
  if st.run ≠ [] then
    (if st.runValid then st.found ++ [st.run.reverse] else st.found)
  else st.found

/-- `Parser.isPseudoClassKeyword`. -/
def isPseudoClassKeyword (s : Str) : Bool :=
  s = str "hover" || s = str "focus" || s = str "active" || s = str "visited" ||
  s = str "link" || s = str "first-child" || s = str "last-child" ||
  s = str "nth-child" || s = str "nth-of-type" || s = str "not"

/-- `Parser.isCSSKeyword`. -/
def isCSSKeyword (s : Str) : Bool :=
  s = str "and" || s = str "or" || s = str "not" || s = str "only" ||
  s = str "all" || s = str "screen" || s = str "print"

/-- `Parser.calculateSpecificity`, counting occurrences with the six
regexes: IDs from `#name`; classes from `.name`, `[attr]` and single-colon
pseudo tokens (filtering matched strings that start with `::`); elements
from `::name` pseudo-elements and bare element identifiers that are not
pseudo-class or CSS keywords. -/
def calculateSpecificity (selector : Str) : Specificity :=
  let ids := (markerRunMatches '#' selector).length
  let classesDot := (markerRunMatches '.' selector).length
  let classesAttr := attrCount selector
  let pseudoMatches := markerRunMatches ':' selector
  let classesPseudo :=
    (pseudoMatches.filter (fun m => !startsWithStr (str "::") m)).length
  let pseudoElems := pseudoElementCount selector
  let elems :=
    ((elementMatches selector).filter (fun m =>
      let element := lowerStr m
      !isPseudoClassKeyword element && !isCSSKeyword element)).length
  ⟨0, ids, classesDot + classesAttr + classesPseudo, pseudoElems + elems, false⟩

example : calculateSpecificity (str "*") = ⟨0, 0, 0, 0, false⟩ := by rfl
example : calculateSpecificity (str "p") = ⟨0, 0, 0, 1, false⟩ := by rfl
example : calculateSpecificity (str ".hi") = ⟨0, 0, 1, 1, false⟩ := by rfl
example : calculateSpecificity (str "#main .item:hover") = ⟨0, 1, 2, 2, false⟩ := by rfl

/-! ### Rule scanning (`Parser.Parse`)

The rule regex `([^{]+)\{([^}]*)\}` pairs every maximal non-brace selector
run with the body extending to the first closing brace. -/

/-- Scanner state for the rule regex. -/
structure RuleScan where
  pairs : List (Str × Str)
  selAcc : Str
  bodyAcc : Str
  inBody : Bool
deriving Repr

def ruleScanStep (st : RuleScan) (c : Char) : RuleScan :=
  if !st.inBody then
    (if c = '\x7b' then
      (if st.selAcc ≠ [] then { st with inBody := true } else st)
     else { st with selAcc := c :: st.selAcc })
  else
    (if c = '\x7d' then
      ⟨st.pairs ++ [(st.selAcc.reverse, st.bodyAcc.reverse)], [], [], false⟩
     else { st with bodyAcc := c :: st.bodyAcc })

/-- `ruleRegex.FindAllStringSubmatch`: the selector/body pairs in order. -/
def scanRulePairs (s : Str) : List (Str × Str) :=
  (s.foldl ruleScanStep ⟨[], [], [], false⟩).pairs

/-- Scanner state for `Parser.removeComments` (`/* ... */`, ending at the
first `*/`; an unclosed comment is not a match and is kept verbatim). -/
structure CommentScan where
  out : Str
  pendingSlash : Bool
  inComment : Bool
  starSeen : Bool
  buf : Str
deriving Repr

def commentStep (st : CommentScan) (c : Char) : CommentScan :=
  if st.inComment then
    (if st.starSeen && c = '/' then { st with inComment := false, starSeen := false, buf := [] }
     else { st with buf := c :: st.buf, starSeen := c = '*' })
  else if st.pendingSlash then
    (if c = '*' then { st with pendingSlash := false, inComment := true, starSeen := false,
                               buf := ['*', '/'] }
     else if c = '/' then { st with out := '/' :: st.out }
     else { st with out := c :: '/' :: st.out, pendingSlash := false })
  else
    (if c = '/' then { st with pendingSlash := true }
     else { st with out := c :: st.out })

/-- `Parser.removeComments`. -/
def removeComments (cssText : Str) : Str :=
  let st := cssText.foldl commentStep ⟨[], false, false, false, []⟩
  let tail := if st.inComment then st.buf else if st.pendingSlash then ['/'] else []
  (tail ++ st.out).reverse

/-- The alternation `import|charset|namespace` of the at-rule regex. -/
def matchAtKeyword (rest : Str) : Option Str :=
  if startsWithStr (str "import") rest then some (str "import")
  else if startsWithStr (str "charset") rest then some (str "charset")
  else if startsWithStr (str "namespace") rest then some (str "namespace")
  else none

/-- `Parser.extractAtRules`: remove every match of
`@(import|charset|namespace)[^;]+;` (at least one non-semicolon character
before the terminating semicolon).  The scan consumes at least one character
per step, so running it with fuel equal to the input length is exact; the
fuel-exhausted branch is unreachable from `extractAtRules`. -/
def extractAtRulesFuel : Nat → Str → Str
  | 0, s => s
  | _, [] => []
  | fuel + 1, c :: rest =>
    if c = '@' then
      match matchAtKeyword rest with
      | none => c :: extractAtRulesFuel fuel rest
      | some kw =>
        let after := rest.drop kw.length
        let nonsemi := after.takeWhile (fun d => d ≠ ';')
        let semirest := after.dropWhile (fun d => d ≠ ';')
        if nonsemi.length > 0 && semirest.length > 0 then
          extractAtRulesFuel fuel (semirest.drop 1)
        else c :: extractAtRulesFuel fuel rest
    else c :: extractAtRulesFuel fuel rest

def extractAtRules (s : Str) : Str := extractAtRulesFuel s.length s

/-- The per-pair loop body of `Parser.Parse`: trim, skip empty selectors or
bodies, compute specificity and declarations; the source-order index counts
every scanned pair, skipped or not. -/
def buildRules : Nat → List (Str × Str) → List Rule
  | _, [] => []
  | i, (selRaw, declRaw) :: rest =>
    let selector := trimSpace selRaw
    let declarations := trimSpace declRaw
    if selector = [] || declarations = [] then buildRules (i + 1) rest
    else ⟨selector, calculateSpecificity selector, parseDeclarations declarations, i⟩ ::
      buildRules (i + 1) rest

/-- `Parser.Parse`: strip comments, strip statement-level at-rules, scan
selector/body pairs, build one `Rule` per surviving pair. -/
def Parse (cssText : Str) : Stylesheet :=
  ⟨buildRules 0 (scanRulePairs (extractAtRules (removeComments cssText)))⟩

example :
    Parse (str "p \x7b color: red \x7d") =
      ⟨[⟨str "p", ⟨0, 0, 0, 1, false⟩,
        [(str "color", ⟨str "color", str "red", false⟩)], 0⟩]⟩ := by rfl

example :
    Parse (str "/* note */ .hi \x7b color: blue \x7d") =
      ⟨[⟨str ".hi", ⟨0, 0, 1, 1, false⟩,
        [(str "color", ⟨str "color", str "blue", false⟩)], 0⟩]⟩ := by rfl

/-! ### Configuration and policy tables (`internal/config/config.go`,
`IsEmailSafeProperty` from `parser.go`) -/

/-- `config.Config`. -/
structure Config where
  PreserveMediaQueries : Bool
  PreservePseudoSelectors : Bool
  RemoveStyleTags : Bool
  StripUnusedCSS : Bool
  EmailClientOptimizations : Bool
  PreserveWhitespace : Bool
  TargetEmailClient : Str
deriving DecidableEq, Repr

/-- `config.Default`. -/
def ConfigDefault : Config :=
  ⟨true, true, false, true, true, true, str "generic"⟩

/-- `config.EmailClientCompatibility`. -/
structure EmailClientCompatibility where
  SupportsMediaQueries : Bool
  SupportsPseudoSelectors : List (Str × Bool)
  RequiresInlineStyles : Bool
  MaxStylesheetSize : Nat
deriving DecidableEq, Repr

/-- `config.GetCompatibilityProfile`: lower-cased lookup with a
conservative default. -/
def GetCompatibilityProfile (client : Str) : EmailClientCompatibility :=
  let c := lowerStr client
  if c = str "outlook" ∨ c = str "outlook_desktop" then
    ⟨false, [(str ":hover", false), (str ":focus", false)], true, 65536⟩
  else if c = str "gmail" ∨ c = str "gmail_web" then
    ⟨true, [(str ":hover", true), (str ":focus", true)], false, 0⟩
  else if c = str "apple_mail" ∨ c = str "mail_app" then
    ⟨true, [(str ":hover", true), (str ":focus", true)], false, 0⟩
  else if c = str "outlook_online" ∨ c = str "outlook_web" then
    ⟨true, [(str ":hover", true), (str ":focus", false)], true, 65536⟩
  else
    ⟨false, [], true, 32768⟩

/-- `css.IsEmailSafeProperty`: membership in the fixed allow-list, on the
lower-cased name. -/
def emailSafeList : List Str :=
  [str "color", str "font-family", str "font-size", str "font-weight",
   str "font-style", str "text-align", str "text-decoration", str "line-height",
   str "letter-spacing",
   str "width", str "height", str "padding", str "padding-top",
   str "padding-right", str "padding-bottom", str "padding-left",
   str "margin", str "margin-top", str "margin-right", str "margin-bottom",
   str "margin-left",
   str "background", str "background-color", str "background-image",
   str "border", str "border-top", str "border-right", str "border-bottom",
   str "border-left", str "border-color", str "border-style", str "border-width",
   str "border-collapse", str "border-spacing", str "vertical-align"]

def IsEmailSafeProperty (property : Str) : Bool :=
  emailSafeList.contains (lowerStr property)

/-! ### Cascade resolution (`internal/resolver/resolver.go`) -/

/-- `resolver.cascadeEntry`. -/
structure cascadeEntry where
  specificity : Specificity
  sourceOrder : Nat
  important : Bool
  isInline : Bool
deriving DecidableEq, Repr

/-- The Go zero value of `cascadeEntry`, produced by reading a missing key
from `winningSpecs`. -/
def cascadeEntryZero : cascadeEntry := ⟨⟨0, 0, 0, 0, false⟩, 0, false, false⟩

/-- `Resolver.shouldReplace`.  Note that the "no existing entry" test checks
for an all-zero specificity, which is also the stored specificity of a real
entry coming from a zero-specificity rule such as `*`. -/
def shouldReplace (property : Str) (newEntry existingEntry : cascadeEntry) : Bool :=
  if existingEntry.specificity.Inline = 0 ∧ existingEntry.specificity.IDs = 0 ∧
     existingEntry.specificity.Classes = 0 ∧ existingEntry.specificity.Elements = 0 then
    true
  else if newEntry.important ∧ ¬ existingEntry.important then true
  else if ¬ newEntry.important ∧ existingEntry.important then false
  else if newEntry.specificity.Compare existingEntry.specificity > 0 then true
  else if newEntry.specificity.Compare existingEntry.specificity < 0 then false
  else decide (newEntry.sourceOrder ≥ existingEntry.sourceOrder)

/-- The cascade state: the `winningDeclarations` and `winningSpecs` maps. -/
abbrev CascadeState := Styles × List (Str × cascadeEntry)

/-- One declaration step of `Resolver.applyCascade`'s loops. -/
def cascadeApplyDecl (st : CascadeState) (property : Str) (declaration : Declaration)
    (spec : Specificity) (sourceOrder : Nat) (isInline : Bool) : CascadeState :=
  let entry : cascadeEntry := ⟨spec, sourceOrder, declaration.Important, isInline⟩
  if shouldReplace property entry ((lookupA property st.2).getD cascadeEntryZero) then
    (insertA property declaration st.1, insertA property entry st.2)
  else st

/-- The inner loop of `applyCascade`'s step 1: all declarations of one
matching rule, with the rule's specificity and source order. -/
def cascadeRuleFold (st : CascadeState) (m : MatchResult) : CascadeState :=
  m.Declarations.foldl (fun st2 pd =>
    cascadeApplyDecl st2 pd.1 pd.2 m.Specificity m.Rule.SourceOrder false) st

/-- Step 2 of `applyCascade`: one existing inline declaration, with
specificity `(1000,0,0,0)` and the synthetic source order 999999. -/
def cascadeInlineFold (st : CascadeState) (pd : Str × Declaration) : CascadeState :=
  cascadeApplyDecl st pd.1 pd.2 (SpecificityFromInline pd.2.Important) 999999 true

/-- `Resolver.applyCascade`: stylesheet candidates first, then the element's
existing inline styles. -/
def applyCascade (ms : List MatchResult) (inlineStyles : Styles) : Styles :=
  (inlineStyles.foldl cascadeInlineFold (ms.foldl cascadeRuleFold ([], []))).1

/-- `Resolver.findMatchingRules` delegates the match predicate to the DOM
provider; `matchResultsOf` is its result for an element every rule matches
(each match carries the rule's specificity and declarations). -/
def matchResultsOf (rules : List Rule) : List MatchResult :=
  rules.map (fun rule => ⟨rule, rule.Specificity, rule.Declarations⟩)

/-- The allowed `display` values of `filterEmailSafeStyles`. -/
def displayAllowed (value : Str) : Bool :=
  value = str "block" || value = str "inline" || value = str "table" ||
  value = str "table-cell"

/-- The per-property decision of `Resolver.filterEmailSafeStyles`'s loop. -/
def keepFiltered (cfg : Config) (compatibility : EmailClientCompatibility)
    (property : Str) (declaration : Declaration) : Bool :=
  if IsEmailSafeProperty property then true
  else if property = str "position" then !compatibility.RequiresInlineStyles
  else if property = str "float" then decide (cfg.TargetEmailClient ≠ str "outlook")
  else if property = str "display" then displayAllowed declaration.Value
  else !compatibility.RequiresInlineStyles

/-- `Resolver.filterEmailSafeStyles`. -/
def filterEmailSafeStyles (cfg : Config) (styles : Styles) : Styles :=
  if !cfg.EmailClientOptimizations then styles
  else
    styles.filter (fun pd =>
      keepFiltered cfg (GetCompatibilityProfile cfg.TargetEmailClient) pd.1 pd.2)

/-- `Resolver.ResolveStyles`, with the DOM interaction factored out: the
matching rules and the element's inline styles are passed explicitly. -/
def ResolveStyles (cfg : Config) (ms : List MatchResult) (inlineStyles : Styles) : Styles :=
  let finalStyles := applyCascade ms inlineStyles
  if cfg.EmailClientOptimizations then filterEmailSafeStyles cfg finalStyles
  else finalStyles

/-- `Resolver.shouldReplaceDeclaration`. -/
def shouldReplaceDeclaration (existing new' : Declaration) : Bool :=
  if new'.Important ∧ ¬ existing.Important then true
  else if ¬ new'.Important ∧ existing.Important then false
  else true

/-- One step of `Resolver.MergeStyles`'s second loop. -/
def mergeStep (merged : Styles) (pd : Str × Declaration) : Styles :=
  match lookupA pd.1 merged with
  | none => insertA pd.1 pd.2 merged
  | some existingDeclaration =>
    if shouldReplaceDeclaration existingDeclaration pd.2 then insertA pd.1 pd.2 merged
    else merged

/-- `Resolver.MergeStyles`: copy `existing`, then fold the new styles in,
respecting an existing `!important` against a non-important newcomer. -/
def MergeStyles (existing newStyles : Styles) : Styles :=
  newStyles.foldl mergeStep (existing.foldl (fun acc pd => insertA pd.1 pd.2 acc) [])

/-- Go `sort.Strings`: lexicographic (codepoint) ascending sort. -/
def sortStrings (l : List Str) : List Str :=
  List.insertionSort (fun a b : Str => a ≤ b) l

/-- The `property: value[ !important]` rendering of one entry of
`Resolver.StylesString` (Go reads `styles[property]`, whose zero value is
returned for a missing key). -/
def renderDecl (styles : Styles) (property : Str) : Str :=
  let declaration := (lookupA property styles).getD ⟨[], [], false⟩
  property ++ str ": " ++
    (declaration.Value ++ (if declaration.Important then str " !important" else []))

/-- `Resolver.StylesString`: sort the property names, render each entry,
join with `"; "`; the empty map gives the empty string. -/
def StylesString (styles : Styles) : Str :=
  if styles.length = 0 then []
  else List.intercalate (str "; ") ((sortStrings (keysA styles)).map (renderDecl styles))

/-- `GoQueryNode.formatStyleString` (`internal/html/goquery.go`), the
serialization used by `SetInlineStyle` when writing the style attribute:
entries are emitted in map iteration order, which Go leaves unspecified;
the function therefore takes the enumeration as a list. -/
def formatStyleString (styles : Styles) : Str :=
  if styles.length = 0 then []
  else
    List.intercalate (str "; ") (styles.map (fun pd =>
      pd.2.Property ++ str ": " ++
        (pd.2.Value ++ (if pd.2.Important then str " !important" else []))))

/-- `resolver.ValidationWarning`. -/
structure ValidationWarning where
  Property : Str
  Value : Str
  Message : Str
  Severity : Str
deriving DecidableEq, Repr

/-- Go `strings.Contains` (does the second string contain the first?). -/
def containsSeq (pat : Str) : Str → Bool
  | [] => pat.isEmpty
  | c :: rest => startsWithStr pat (c :: rest) || containsSeq pat rest

/-- The warnings produced for one property by `Resolver.ValidateStyles`. -/
def warningsFor (cfg : Config) (compatibility : EmailClientCompatibility)
    (property : Str) (declaration : Declaration) : List ValidationWarning :=
  (if property = str "background-image" then
    (if containsSeq (str "url(") declaration.Value ∧ cfg.TargetEmailClient = str "outlook" then
      [⟨property, declaration.Value,
        str "Background images may not render in Outlook desktop", str "warning"⟩]
     else [])
   else if property = str "width" ∨ property = str "height" then
    (if containsSeq (str "vw") declaration.Value ∨ containsSeq (str "vh") declaration.Value then
      [⟨property, declaration.Value,
        str "Viewport units not supported in email clients", str "error"⟩]
     else [])
   else if property = str "position" then
    (if declaration.Value ≠ str "static" ∧ compatibility.RequiresInlineStyles then
      [⟨property, declaration.Value,
        str "Positioning not supported in this email client", str "warning"⟩]
     else [])
   else []) ++
  (if !IsEmailSafeProperty property then
    [⟨property, declaration.Value,
      str "Property may not be supported across all email clients", str "info"⟩]
   else [])

/-- `Resolver.ValidateStyles`. -/
def ValidateStyles (cfg : Config) (styles : Styles) : List ValidationWarning :=
  styles.foldl (fun warnings pd =>
    warnings ++ warningsFor cfg (GetCompatibilityProfile cfg.TargetEmailClient) pd.1 pd.2) []

/-- `Inliner.processElement` (driver file), DOM interaction factored out:
resolve, and unless the computed map is empty, merge with the existing
inline styles, validate the merged map, and write it back.  Returns the
styles written to the element (unchanged when the computed map is empty)
and the warnings appended to the result. -/
def processElement (cfg : Config) (ms : List MatchResult) (inlineStyles : Styles) :
    Styles × List ValidationWarning :=
  let computedStyles := ResolveStyles cfg ms inlineStyles
  if computedStyles.length = 0 then (inlineStyles, [])
  else
    let finalStyles := MergeStyles inlineStyles computedStyles
    (finalStyles, ValidateStyles cfg finalStyles)

example :
    applyCascade (matchResultsOf
        (Parse (str "p \x7bcolor:red\x7d .hi \x7bcolor:blue\x7d")).Rules) [] =
      [(str "color", ⟨str "color", str "blue", false⟩)] := by rfl

example :
    applyCascade (matchResultsOf
        (Parse (str "p \x7bcolor:red !important\x7d .hi \x7bcolor:blue\x7d")).Rules) [] =
      [(str "color", ⟨str "color", str "red", true⟩)] := by rfl

example :
    applyCascade (matchResultsOf (Parse (str ".hi \x7bcolor:blue\x7d")).Rules)
        [(str "color", ⟨str "color", str "green", false⟩)] =
      [(str "color", ⟨str "color", str "green", false⟩)] := by rfl

example :
    StylesString [(str "width", ⟨str "width", str "10px", false⟩),
                  (str "color", ⟨str "color", str "red", true⟩)] =
      str "color: red !important; width: 10px" := by rfl

/-! ### Cascade domain lemmas -/

theorem keysA_cons' {α : Type} (pd : Str × α) (rest : List (Str × α)) :
    keysA (pd :: rest) = pd.1 :: keysA rest := by
  obtain ⟨k, w⟩ := pd
  rfl

theorem shouldReplace_of_zero (p : Str) (e : cascadeEntry) :
    shouldReplace p e cascadeEntryZero = true := by
  simp [shouldReplace, cascadeEntryZero]

theorem cascadeApplyDecl_keys (st : CascadeState) (p : Str) (d : Declaration)
    (sp : Specificity) (so : Nat) (b : Bool) (hinv : keysA st.1 = keysA st.2) :
    keysA (cascadeApplyDecl st p d sp so b).1 = keysA (cascadeApplyDecl st p d sp so b).2 ∧
    (∀ q, q ∈ keysA (cascadeApplyDecl st p d sp so b).1 ↔ q = p ∨ q ∈ keysA st.1) ∧
    ((keysA st.1).Nodup → (keysA (cascadeApplyDecl st p d sp so b).1).Nodup) := by
  by_cases hrep :
      shouldReplace p ⟨sp, so, d.Important, b⟩ ((lookupA p st.2).getD cascadeEntryZero) = true
  · have hstep : cascadeApplyDecl st p d sp so b =
        (insertA p d st.1, insertA p ⟨sp, so, d.Important, b⟩ st.2) := by
      simp [cascadeApplyDecl, hrep]
    rw [hstep]
    refine ⟨?_, fun q => mem_keysA_insertA p q d st.1, fun h => nodup_keysA_insertA _ _ _ h⟩
    by_cases hp : p ∈ keysA st.1
    · rw [keysA_insertA_mem _ _ _ hp, keysA_insertA_mem _ _ _ (hinv ▸ hp), hinv]
    · rw [keysA_insertA_not_mem _ _ _ hp, keysA_insertA_not_mem _ _ _ (hinv ▸ hp), hinv]
  · have hmem : p ∈ keysA st.1 := by
      cases hl : lookupA p st.2 with
      | none =>
        rw [hl] at hrep
        simp only [Option.getD_none] at hrep
        exact absurd (shouldReplace_of_zero p ⟨sp, so, d.Important, b⟩) hrep
      | some e =>
        have : p ∈ keysA st.2 := (lookupA_isSome_iff_mem_keysA p st.2).1 (by simp [hl])
        exact hinv ▸ this
    have hstep : cascadeApplyDecl st p d sp so b = st := by
      simp [cascadeApplyDecl, hrep]
    rw [hstep]
    refine ⟨hinv, fun q => ?_, fun h => h⟩
    constructor
    · exact Or.inr
    · rintro (rfl | hq)
      · exact hmem
      · exact hq

theorem cascadeFoldDecls (sp : Specificity) (so : Nat) (b : Bool) :
    ∀ (decls : Styles) (st : CascadeState), keysA st.1 = keysA st.2 →
      (keysA (decls.foldl (fun st2 pd => cascadeApplyDecl st2 pd.1 pd.2 sp so b) st).1 =
        keysA (decls.foldl (fun st2 pd => cascadeApplyDecl st2 pd.1 pd.2 sp so b) st).2) ∧
      (∀ q, q ∈ keysA (decls.foldl (fun st2 pd => cascadeApplyDecl st2 pd.1 pd.2 sp so b) st).1 ↔
        q ∈ keysA decls ∨ q ∈ keysA st.1) ∧
      ((keysA st.1).Nodup →
        (keysA (decls.foldl (fun st2 pd => cascadeApplyDecl st2 pd.1 pd.2 sp so b) st).1).Nodup)
  | [], st, hinv => by
    refine ⟨hinv, fun q => ?_, fun h => h⟩
    simp
  | pd :: rest, st, hinv => by
    obtain ⟨h1, h2, h3⟩ := cascadeApplyDecl_keys st pd.1 pd.2 sp so b hinv
    obtain ⟨g1, g2, g3⟩ :=
      cascadeFoldDecls sp so b rest (cascadeApplyDecl st pd.1 pd.2 sp so b) h1
    refine ⟨g1, fun q => ?_, fun hnd => g3 (h3 hnd)⟩
    rw [List.foldl_cons]
    rw [g2 q, h2 q, keysA_cons']
    simp only [List.mem_cons]
    tauto

theorem cascadeFoldMatches :
    ∀ (ms : List MatchResult) (st : CascadeState), keysA st.1 = keysA st.2 →
      (keysA (ms.foldl cascadeRuleFold st).1 = keysA (ms.foldl cascadeRuleFold st).2) ∧
      (∀ q, q ∈ keysA (ms.foldl cascadeRuleFold st).1 ↔
        (∃ m ∈ ms, q ∈ keysA m.Declarations) ∨ q ∈ keysA st.1) ∧
      ((keysA st.1).Nodup → (keysA (ms.foldl cascadeRuleFold st).1).Nodup)
  | [], st, hinv => by
    refine ⟨hinv, fun q => ?_, fun h => h⟩
    simp
  | m :: rest, st, hinv => by
    obtain ⟨h1, h2, h3⟩ :=
      cascadeFoldDecls m.Specificity m.Rule.SourceOrder false m.Declarations st hinv
    obtain ⟨g1, g2, g3⟩ := cascadeFoldMatches rest (cascadeRuleFold st m) h1
    refine ⟨g1, fun q => ?_, fun hnd => g3 (h3 hnd)⟩
    rw [List.foldl_cons]
    rw [g2 q]
    have h2' : ∀ q', q' ∈ keysA (cascadeRuleFold st m).1 ↔
        q' ∈ keysA m.Declarations ∨ q' ∈ keysA st.1 := h2
    rw [h2' q]
    simp only [List.mem_cons]
    constructor
    · rintro (⟨m', hm', hq⟩ | hq | hq)
      · exact Or.inl ⟨m', Or.inr hm', hq⟩
      · exact Or.inl ⟨m, Or.inl rfl, hq⟩
      · exact Or.inr hq
    · rintro (⟨m', hm' | hm', hq⟩ | hq)
      · exact Or.inr (Or.inl (hm' ▸ hq))
      · exact Or.inl ⟨m', hm', hq⟩
      · exact Or.inr (Or.inr hq)

theorem cascadeFoldInline :
    ∀ (inl : Styles) (st : CascadeState), keysA st.1 = keysA st.2 →
      (keysA (inl.foldl cascadeInlineFold st).1 = keysA (inl.foldl cascadeInlineFold st).2) ∧
      (∀ q, q ∈ keysA (inl.foldl cascadeInlineFold st).1 ↔
        q ∈ keysA inl ∨ q ∈ keysA st.1) ∧
      ((keysA st.1).Nodup → (keysA (inl.foldl cascadeInlineFold st).1).Nodup)
  | [], st, hinv => by
    refine ⟨hinv, fun q => ?_, fun h => h⟩
    simp
  | pd :: rest, st, hinv => by
    obtain ⟨h1, h2, h3⟩ := cascadeApplyDecl_keys st pd.1 pd.2
      (SpecificityFromInline pd.2.Important) 999999 true hinv
    obtain ⟨g1, g2, g3⟩ := cascadeFoldInline rest (cascadeInlineFold st pd) h1
    refine ⟨g1, fun q => ?_, fun hnd => g3 (h3 hnd)⟩
    rw [List.foldl_cons]
    rw [g2 q]
    have h2' : ∀ q', q' ∈ keysA (cascadeInlineFold st pd).1 ↔ q' = pd.1 ∨ q' ∈ keysA st.1 := h2
    rw [h2' q, keysA_cons']
    simp only [List.mem_cons]
    tauto

/-! ### Merge lemmas -/

theorem insertA_not_mem {α : Type} (p : Str) (v : α) (l : List (Str × α))
    (h : ¬ p ∈ keysA l) : insertA p v l = l ++ [(p, v)] := by
  induction l with
  | nil => rfl
  | cons kw rest ih =>
    obtain ⟨k, w⟩ := kw
    by_cases hk : k = p
    · exact absurd (by simp [hk]) h
    · have : ¬ p ∈ keysA rest := fun hc => h (by simp [hc])
      simp [insertA, hk, ih this]

theorem keysA_append {α : Type} (l1 l2 : List (Str × α)) :
    keysA (l1 ++ l2) = keysA l1 ++ keysA l2 := by
  induction l1 with
  | nil => rfl
  | cons kw rest ih =>
    obtain ⟨k, w⟩ := kw
    simp [ih]

/-- The first loop of `MergeStyles` copies a map whose keys are distinct
without change. -/
theorem insertAll_eq {α : Type} :
    ∀ (e : List (Str × α)) (acc : List (Str × α)), (keysA e).Nodup →
      (∀ k, k ∈ keysA e → ¬ k ∈ keysA acc) →
      e.foldl (fun acc2 pd => insertA pd.1 pd.2 acc2) acc = acc ++ e
  | [], acc, _, _ => by simp
  | pd :: rest, acc, hnd, hdisj => by
    obtain ⟨k, v⟩ := pd
    have hknotacc : ¬ k ∈ keysA acc := hdisj k (by simp)
    have hndrest : (keysA rest).Nodup := by
      simpa using hnd.sublist (by simp [keysA_cons'])
    have hknotrest : ¬ k ∈ keysA rest := by
      have := hnd
      simp only [keysA_cons] at this
      exact (List.nodup_cons.1 this).1
    rw [List.foldl_cons, insertA_not_mem k v acc hknotacc]
    rw [insertAll_eq rest (acc ++ [(k, v)]) hndrest ?_]
    · simp
    · intro q hq
      rw [keysA_append]
      simp only [List.mem_append]
      rintro (hc | hc)
      · exact hdisj q (by simp [hq]) hc
      · simp only [keysA_cons, keysA_nil, List.mem_singleton] at hc
        exact hknotrest (hc ▸ hq)

theorem nodup_insertAll {α : Type} :
    ∀ (e : List (Str × α)) (acc : List (Str × α)), (keysA acc).Nodup →
      (keysA (e.foldl (fun acc2 pd => insertA pd.1 pd.2 acc2) acc)).Nodup
  | [], _, h => h
  | pd :: rest, acc, h => by
    rw [List.foldl_cons]
    exact nodup_insertAll rest _ (nodup_keysA_insertA pd.1 pd.2 acc h)

theorem shouldReplaceDeclaration_eq_false_iff (existing new' : Declaration) :
    shouldReplaceDeclaration existing new' = false ↔
      existing.Important = true ∧ new'.Important = false := by
  cases he : existing.Important <;> cases hn : new'.Important <;>
    simp [shouldReplaceDeclaration, he, hn]

theorem mergeStep_lookup_self (merged : Styles) (pd : Str × Declaration) :
    lookupA pd.1 (mergeStep merged pd) =
      match lookupA pd.1 merged with
      | none => some pd.2
      | some ex => if ex.Important ∧ ¬ pd.2.Important then some ex else some pd.2 := by
  unfold mergeStep
  cases hl : lookupA pd.1 merged with
  | none => simp [lookupA_insertA_self]
  | some ex =>
    by_cases hrep : shouldReplaceDeclaration ex pd.2 = true
    · have hcond : ¬ (ex.Important = true ∧ pd.2.Important = false) := by
        intro ⟨h1, h2⟩
        have := (shouldReplaceDeclaration_eq_false_iff ex pd.2).2 ⟨h1, h2⟩
        simp [this] at hrep
      simp [hrep, lookupA_insertA_self, hcond]
    · have hf : shouldReplaceDeclaration ex pd.2 = false := by
        simpa using hrep
      obtain ⟨h1, h2⟩ := (shouldReplaceDeclaration_eq_false_iff ex pd.2).1 hf
      simp [hf, hl, h1, h2]

theorem mergeStep_lookup_ne (merged : Styles) (pd : Str × Declaration) (q : Str)
    (h : q ≠ pd.1) : lookupA q (mergeStep merged pd) = lookupA q merged := by
  unfold mergeStep
  cases hl : lookupA pd.1 merged with
  | none => simp [lookupA_insertA_ne pd.1 q pd.2 merged (fun hc => h hc.symm)]
  | some ex =>
    by_cases hrep : shouldReplaceDeclaration ex pd.2 = true <;>
      simp [hrep, lookupA_insertA_ne pd.1 q pd.2 merged (fun hc => h hc.symm)]

theorem mem_keysA_mergeStep (merged : Styles) (pd : Str × Declaration) (q : Str) :
    q ∈ keysA (mergeStep merged pd) ↔ q = pd.1 ∨ q ∈ keysA merged := by
  unfold mergeStep
  cases hl : lookupA pd.1 merged with
  | none => exact mem_keysA_insertA pd.1 q pd.2 merged
  | some ex =>
    by_cases hrep : shouldReplaceDeclaration ex pd.2 = true
    · simp only [hrep, if_true]
      exact mem_keysA_insertA pd.1 q pd.2 merged
    · have hmem : pd.1 ∈ keysA merged :=
        (lookupA_isSome_iff_mem_keysA pd.1 merged).1 (by simp [hl])
      simp only [hrep, if_false]
      constructor
      · exact Or.inr
      · rintro (rfl | hq)
        · exact hmem
        · exact hq

theorem keysA_mergeStep_mem (merged : Styles) (pd : Str × Declaration)
    (h : pd.1 ∈ keysA merged) : keysA (mergeStep merged pd) = keysA merged := by
  unfold mergeStep
  cases hl : lookupA pd.1 merged with
  | none =>
    exact absurd h (by rw [← lookupA_isSome_iff_mem_keysA]; simp [hl])
  | some ex =>
    by_cases hrep : shouldReplaceDeclaration ex pd.2 = true <;>
      simp [hrep, keysA_insertA_mem pd.1 pd.2 merged h]

theorem nodup_keysA_mergeStep (merged : Styles) (pd : Str × Declaration)
    (h : (keysA merged).Nodup) : (keysA (mergeStep merged pd)).Nodup := by
  unfold mergeStep
  cases hl : lookupA pd.1 merged with
  | none => exact nodup_keysA_insertA pd.1 pd.2 merged h
  | some ex =>
    by_cases hrep : shouldReplaceDeclaration ex pd.2 = true <;>
      simp [hrep, nodup_keysA_insertA pd.1 pd.2 merged h, h]

/-- Lookup characterization of `MergeStyles`'s second loop: the existing
entry survives exactly when it is `!important` and the newcomer is not. -/
theorem mergeFold_lookup :
    ∀ (ns : Styles) (merged : Styles) (q : Str), (keysA ns).Nodup →
      lookupA q (ns.foldl mergeStep merged) =
        match lookupA q ns with
        | none => lookupA q merged
        | some d' =>
          match lookupA q merged with
          | none => some d'
          | some ex => if ex.Important ∧ ¬ d'.Important then some ex else some d'
  | [], merged, q, _ => by simp [lookupA]
  | pd :: rest, merged, q, hnd => by
    have hndrest : (keysA rest).Nodup := by
      rw [keysA_cons'] at hnd
      exact (List.nodup_cons.1 hnd).2
    have hhead : ¬ pd.1 ∈ keysA rest := by
      rw [keysA_cons'] at hnd
      exact (List.nodup_cons.1 hnd).1
    rw [List.foldl_cons]
    rw [mergeFold_lookup rest (mergeStep merged pd) q hndrest]
    by_cases hq : q = pd.1
    · subst hq
      rw [lookupA_eq_none_of_not_mem pd.1 rest hhead]
      have h1 : lookupA pd.1 (pd :: rest) = some pd.2 := by
        obtain ⟨k, v⟩ := pd
        simp [lookupA]
      rw [h1]
      exact mergeStep_lookup_self merged pd
    · have h1 : lookupA q (pd :: rest) = lookupA q rest := by
        obtain ⟨k, v⟩ := pd
        simp only at hq
        have hne : k ≠ q := fun hc => hq hc.symm
        simp [lookupA, hne]
      rw [h1, mergeStep_lookup_ne merged pd q hq]

theorem mem_keysA_mergeFold :
    ∀ (ns : Styles) (merged : Styles) (q : Str),
      q ∈ keysA (ns.foldl mergeStep merged) ↔ q ∈ keysA ns ∨ q ∈ keysA merged
  | [], merged, q => by simp
  | pd :: rest, merged, q => by
    rw [List.foldl_cons, mem_keysA_mergeFold rest (mergeStep merged pd) q,
      mem_keysA_mergeStep merged pd q, keysA_cons']
    simp only [List.mem_cons]
    tauto

theorem keysA_mergeFold_subset :
    ∀ (ns : Styles) (merged : Styles), (∀ pd, pd ∈ ns → pd.1 ∈ keysA merged) →
      keysA (ns.foldl mergeStep merged) = keysA merged
  | [], _, _ => rfl
  | pd :: rest, merged, h => by
    rw [List.foldl_cons]
    rw [keysA_mergeFold_subset rest (mergeStep merged pd)
      (fun pd' hpd' => by
        rw [mem_keysA_mergeStep]
        exact Or.inr (h pd' (by simp [hpd'])))]
    exact keysA_mergeStep_mem merged pd (h pd (by simp))

theorem nodup_keysA_mergeFold :
    ∀ (ns : Styles) (merged : Styles), (keysA merged).Nodup →
      (keysA (ns.foldl mergeStep merged)).Nodup
  | [], _, h => h
  | pd :: rest, merged, h => by
    rw [List.foldl_cons]
    exact nodup_keysA_mergeFold rest _ (nodup_keysA_mergeStep merged pd h)

theorem nodup_keysA_MergeStyles (existing newStyles : Styles) :
    (keysA (MergeStyles existing newStyles)).Nodup :=
  nodup_keysA_mergeFold newStyles _ (nodup_insertAll existing [] (by simp))

theorem fst_mem_keysA {α : Type} (pd : Str × α) :
    ∀ l : List (Str × α), pd ∈ l → pd.1 ∈ keysA l
  | hd :: tl, h => by
    cases h with
    | head => simp [keysA_cons']
    | tail _ h' =>
      rw [keysA_cons']
      exact List.mem_cons_of_mem _ (fst_mem_keysA pd tl h')

/-- Association lists with the same distinct keys in the same order and the
same lookups are equal. -/
theorem alist_ext {α : Type} :
    ∀ (l1 l2 : List (Str × α)), (keysA l1).Nodup → keysA l1 = keysA l2 →
      (∀ q, lookupA q l1 = lookupA q l2) → l1 = l2
  | [], [], _, _, _ => rfl
  | [], (k, v) :: t, _, hk, _ => by simp at hk
  | (k, v) :: t, [], _, hk, _ => by simp at hk
  | (k1, v1) :: t1, (k2, v2) :: t2, hnd, hk, hl => by
    simp only [keysA_cons, List.cons.injEq] at hk
    obtain ⟨hkk, hkt⟩ := hk
    subst hkk
    have hnd' : (keysA t1).Nodup := (List.nodup_cons.1 (by simpa using hnd)).2
    have hk1 : ¬ k1 ∈ keysA t1 := (List.nodup_cons.1 (by simpa using hnd)).1
    have hk2 : ¬ k1 ∈ keysA t2 := hkt ▸ hk1
    have hv : v1 = v2 := by
      have := hl k1
      simpa [lookupA] using this
    subst hv
    have ht : t1 = t2 := by
      refine alist_ext t1 t2 hnd' hkt (fun q => ?_)
      by_cases hq : q = k1
      · subst hq
        rw [lookupA_eq_none_of_not_mem q t1 hk1, lookupA_eq_none_of_not_mem q t2 hk2]
      · have hne : k1 ≠ q := fun hc => hq hc.symm
        have := hl q
        simpa [lookupA, hne] using this
    rw [ht]

/-! ### Filter lemmas -/

theorem mem_keysA_filter {α : Type} (P : Str × α → Bool) :
    ∀ (l : List (Str × α)) (q : Str), q ∈ keysA (l.filter P) → q ∈ keysA l
  | [], q, h => by simpa using h
  | (k, v) :: rest, q, h => by
    rw [keysA_cons]
    cases hP : P (k, v) with
    | true =>
      rw [List.filter_cons_of_pos hP, keysA_cons] at h
      rcases List.mem_cons.1 h with h | h
      · rw [h]
        exact List.mem_cons_self _ _
      · exact List.mem_cons_of_mem _ (mem_keysA_filter P rest q h)
    | false =>
      rw [List.filter_cons_of_neg (by simp [hP])] at h
      exact List.mem_cons_of_mem _ (mem_keysA_filter P rest q h)

theorem lookupA_filter {α : Type} (P : Str × α → Bool) :
    ∀ (l : List (Str × α)), (keysA l).Nodup → ∀ (p : Str) (d : α),
      (lookupA p (l.filter P) = some d ↔ lookupA p l = some d ∧ P (p, d) = true)
  | [], _, p, d => by simp [lookupA]
  | (k, v) :: rest, hnd, p, d => by
    have hndr : (keysA rest).Nodup := (List.nodup_cons.1 (by simpa using hnd)).2
    have hknot : ¬ k ∈ keysA rest := (List.nodup_cons.1 (by simpa using hnd)).1
    by_cases hk : k = p
    · subst hk
      cases hP : P (k, v) with
      | true =>
        rw [List.filter_cons_of_pos hP, lookupA_cons_self, lookupA_cons_self]
        constructor
        · intro h
          exact ⟨h, (Option.some.inj h) ▸ hP⟩
        · rintro ⟨h, _⟩
          exact h
      | false =>
        rw [List.filter_cons_of_neg (by simp [hP])]
        have hnone : lookupA k (rest.filter P) = none := by
          apply lookupA_eq_none_of_not_mem
          intro hc
          exact hknot (mem_keysA_filter P rest k hc)
        rw [hnone, lookupA_cons_self]
        constructor
        · intro h
          cases h
        · rintro ⟨h, hPd⟩
          have hv : v = d := Option.some.inj h
          subst hv
          rw [hP] at hPd
          cases hPd
    · cases hP : P (k, v) with
      | true =>
        rw [List.filter_cons_of_pos hP, lookupA_cons_ne k v _ p hk,
          lookupA_cons_ne k v rest p hk]
        exact lookupA_filter P rest hndr p d
      | false =>
        rw [List.filter_cons_of_neg (by simp [hP]), lookupA_cons_ne k v rest p hk]
        exact lookupA_filter P rest hndr p d

/-! ### Claim theorems -/

/-- C1: the claim that an `!important` declaration always defeats a
non-`!important` one fails on the code.  `shouldReplace` treats an all-zero
stored specificity as "no existing entry", so after the universal-selector
rule `* \x7b color:red !important \x7d` (specificity `(0,0,0,0)`) wins the
`color` slot, a later non-important `* \x7b color:green \x7d` — and likewise a
non-important inline `color:green` — replaces it unconditionally.  This
theorem evaluates the cascade at that failing input: the stylesheet parses
to the two rules (source orders 0 and 1, the first declaration
`!important`), yet the cascade winner is the non-important `green`, and with
only the `!important` rule plus a non-important inline `color:green` the
inline declaration wins as well. -/
theorem c1_zero_specificity_cascade_divergence :
    (Parse (str "*\x7bcolor:red !important\x7d*\x7bcolor:green\x7d")).Rules.map
        (fun r => (r.Specificity, r.SourceOrder,
          lookupA (str "color") r.Declarations)) =
      [(⟨0, 0, 0, 0, false⟩, 0, some ⟨str "color", str "red", true⟩),
       (⟨0, 0, 0, 0, false⟩, 1, some ⟨str "color", str "green", false⟩)] ∧
    applyCascade (matchResultsOf
        (Parse (str "*\x7bcolor:red !important\x7d*\x7bcolor:green\x7d")).Rules) [] =
      [(str "color", ⟨str "color", str "green", false⟩)] ∧
    applyCascade (matchResultsOf
        (Parse (str "*\x7bcolor:red !important\x7d")).Rules)
        [(str "color", ⟨str "color", str "green", false⟩)] =
      [(str "color", ⟨str "color", str "green", false⟩)] :=
  ⟨rfl, rfl, rfl⟩

/-- C3: the pseudo-class regex `:[a-zA-Z0-9_-]+` can never produce a match
string that starts with `::` — on `::before` its match is the sub-token
`:before` starting after the first colon — so the `HasPrefix(match, "::")`
filter never fires and every double-colon pseudo-element is also counted as
a pseudo-class.  For the selector `::before` the code computes `Classes = 1`
(the claim requires 0) and `Elements = 2` (once from the pseudo-element
regex and once from the bare identifier `before`). -/
theorem c3_pseudo_element_counted_as_class :
    calculateSpecificity (str "::before") = ⟨0, 0, 1, 2, false⟩ ∧
    markerRunMatches ':' (str "::before") = [str ":before"] :=
  ⟨rfl, rfl⟩

/-- C5 counterexample: the marker regex `!\s*important\s*$` is
case-sensitive, so a declaration whose value ends in `!IMPORTANT` is stored
with `important = false` and the marker left in the value, contradicting the
claimed case-insensitive matching. -/
theorem c5_uppercase_marker_not_stripped :
    parseDeclarations (str "color: red !IMPORTANT") =
      [(str "color", ⟨str "color", str "red !IMPORTANT", false⟩)] := rfl

/-- C4 counterexample: the parser performs no comma splitting — the pair
`h1, h2 \x7b color:red \x7d` produces a single `Rule` whose selector text
retains the comma, not one rule per comma-separated group. -/
theorem c4_no_comma_splitting :
    (Parse (str "h1, h2 \x7bcolor:red\x7d")).Rules.length = 1 ∧
    (Parse (str "h1, h2 \x7bcolor:red\x7d")).Rules.map Rule.Selector =
      [str "h1, h2"] :=
  ⟨rfl, rfl⟩

/-- C2 counterexample: for target `outlook` with optimizations on, the
scenario `.x \x7b float:left; color:red \x7d` on an element matching `.x` drops
`float` from the written styles as claimed, but the warning list is empty —
validation runs on the already-filtered styles, so no ValidationWarning is
ever emitted for the filtered `float`. -/
theorem c2_no_float_warning :
    processElement ⟨true, true, false, true, true, true, str "outlook"⟩
        (matchResultsOf (Parse (str ".x\x7bfloat:left;color:red\x7d")).Rules) [] =
      ([(str "color", ⟨str "color", str "red", false⟩)], []) := rfl

/-- C6 counterexample: `formatStyleString` — the serialization actually used
when writing the style attribute back to an element — does not sort; its
output depends on the map enumeration order, which Go leaves unspecified, so
two runs on equal maps can produce different strings. -/
theorem c6_format_style_string_order_dependent :
    ([(str "color", ⟨str "color", str "red", false⟩),
      (str "width", ⟨str "width", str "10px", false⟩)] : Styles).Perm
      ([(str "width", ⟨str "width", str "10px", false⟩),
        (str "color", ⟨str "color", str "red", false⟩)] : Styles) ∧
    formatStyleString
        [(str "color", ⟨str "color", str "red", false⟩),
         (str "width", ⟨str "width", str "10px", false⟩)] ≠
      formatStyleString
        [(str "width", ⟨str "width", str "10px", false⟩),
         (str "color", ⟨str "color", str "red", false⟩)] :=
  ⟨List.Perm.swap _ _ _, by decide⟩

/-- C7: for every list of matching rules and every pre-existing inline style
map, the cascade output has exactly one entry per property that occurs in
some matching rule's declarations or in the inline map: membership in the
output's key list is equivalent to that occurrence, and the key list has no
duplicates. -/
theorem c7_cascade_output_domain (ms : List MatchResult) (inlineStyles : Styles) :
    (∀ q, q ∈ keysA (applyCascade ms inlineStyles) ↔
      (∃ m ∈ ms, q ∈ keysA m.Declarations) ∨ q ∈ keysA inlineStyles) ∧
    (keysA (applyCascade ms inlineStyles)).Nodup := by
  obtain ⟨h1, h2, h3⟩ := cascadeFoldMatches ms ([], []) rfl
  obtain ⟨g1, g2, g3⟩ := cascadeFoldInline inlineStyles (ms.foldl cascadeRuleFold ([], [])) h1
  constructor
  · intro q
    show q ∈ keysA (inlineStyles.foldl cascadeInlineFold
      (ms.foldl cascadeRuleFold ([], []))).1 ↔ _
    rw [g2 q, h2 q]
    simp only [keysA_nil, List.not_mem_nil, or_false]
    exact or_comm
  · exact g3 (h3 (by simp))

/-- C8: `MergeStyles` starts from `existing` and, for each property of
`newStyles`, keeps the existing declaration exactly when it is `!important`
and the newcomer is not, installing the newcomer otherwise; in particular a
singleton `!important` entry survives a non-important newcomer for the same
property. -/
theorem c8_merge_keeps_important_existing (existing newStyles : Styles)
    (he : (keysA existing).Nodup) (hn : (keysA newStyles).Nodup) :
    (∀ p, lookupA p (MergeStyles existing newStyles) =
      match lookupA p newStyles with
      | none => lookupA p existing
      | some d' =>
        match lookupA p existing with
        | none => some d'
        | some d => if d.Important ∧ ¬ d'.Important then some d else some d') ∧
    (∀ (q : Str) (d d' : Declaration), d.Important = true → d'.Important = false →
      MergeStyles [(q, d)] [(q, d')] = [(q, d)]) := by
  constructor
  · intro p
    have hini : existing.foldl (fun acc2 pd => insertA pd.1 pd.2 acc2) [] = existing := by
      simpa using insertAll_eq existing [] he (by simp)
    show lookupA p (newStyles.foldl mergeStep
      (existing.foldl (fun acc2 pd => insertA pd.1 pd.2 acc2) [])) = _
    rw [hini]
    exact mergeFold_lookup newStyles existing p hn
  · intro q d d' hd hd'
    have hsr : shouldReplaceDeclaration d d' = false :=
      (shouldReplaceDeclaration_eq_false_iff d d').2 ⟨hd, hd'⟩
    show List.foldl mergeStep _ _ = _
    simp [mergeStep, insertA, lookupA, hsr]

/-- Witness for C8 at a concrete input: a singleton `!important` red entry
survives the merge with a non-important blue newcomer. -/
theorem c8_merge_keeps_important_existing_witness :
    (keysA ([(str "color", ⟨str "color", str "red", true⟩)] : Styles)).Nodup ∧
    (keysA ([(str "color", ⟨str "color", str "blue", false⟩)] : Styles)).Nodup ∧
    MergeStyles [(str "color", ⟨str "color", str "red", true⟩)]
        [(str "color", ⟨str "color", str "blue", false⟩)] =
      [(str "color", ⟨str "color", str "red", true⟩)] :=
  ⟨by decide, by decide,
   (c8_merge_keeps_important_existing
      [(str "color", ⟨str "color", str "red", true⟩)]
      [(str "color", ⟨str "color", str "blue", false⟩)] (by decide) (by decide)).2
     (str "color") ⟨str "color", str "red", true⟩ ⟨str "color", str "blue", false⟩ rfl rfl⟩

/-- C9: merging is idempotent in its second argument —
`MergeStyles (MergeStyles x y) y = MergeStyles x y` for every map `x` and
every map `y` (a Go map enumeration, so with distinct keys). -/
theorem c9_merge_idempotent (x y : Styles) (hy : (keysA y).Nodup) :
    MergeStyles (MergeStyles x y) y = MergeStyles x y := by
  have hmnd : (keysA (MergeStyles x y)).Nodup := nodup_keysA_MergeStyles x y
  have hini : (MergeStyles x y).foldl (fun acc2 pd => insertA pd.1 pd.2 acc2) [] =
      MergeStyles x y := by
    simpa using insertAll_eq (MergeStyles x y) [] hmnd (by simp)
  show y.foldl mergeStep
    ((MergeStyles x y).foldl (fun acc2 pd => insertA pd.1 pd.2 acc2) []) = MergeStyles x y
  rw [hini]
  have hsub : ∀ pd, pd ∈ y → pd.1 ∈ keysA (MergeStyles x y) := by
    intro pd hpd
    show pd.1 ∈ keysA (y.foldl mergeStep
      (x.foldl (fun acc2 pd2 => insertA pd2.1 pd2.2 acc2) []))
    rw [mem_keysA_mergeFold]
    exact Or.inl (fst_mem_keysA pd y hpd)
  refine alist_ext _ _ (nodup_keysA_mergeFold y (MergeStyles x y) hmnd)
    (keysA_mergeFold_subset y (MergeStyles x y) hsub) (fun q => ?_)
  rw [mergeFold_lookup y (MergeStyles x y) q hy]
  have hm : lookupA q (MergeStyles x y) =
      (match lookupA q y with
       | none => lookupA q (x.foldl (fun acc2 pd => insertA pd.1 pd.2 acc2) [])
       | some d' =>
         match lookupA q (x.foldl (fun acc2 pd => insertA pd.1 pd.2 acc2) []) with
         | none => some d'
         | some ex => if ex.Important ∧ ¬ d'.Important then some ex else some d') :=
    mergeFold_lookup y _ q hy
  cases hly : lookupA q y with
  | none => rfl
  | some d' =>
    rw [hly] at hm
    cases hlx : lookupA q (x.foldl (fun acc2 pd => insertA pd.1 pd.2 acc2) []) with
    | none =>
      rw [hlx] at hm
      simp only at hm
      rw [hm]
      simp
    | some dx =>
      rw [hlx] at hm
      simp only at hm
      by_cases hc : dx.Important ∧ ¬ d'.Important
      · rw [if_pos hc] at hm
        rw [hm]
        simp only
        rw [if_pos hc]
      · rw [if_neg hc] at hm
        rw [hm]
        simp

/-- Witness for C9 at a concrete input. -/
theorem c9_merge_idempotent_witness :
    (keysA ([(str "color", ⟨str "color", str "blue", false⟩)] : Styles)).Nodup ∧
    MergeStyles
        (MergeStyles [(str "color", ⟨str "color", str "red", true⟩)]
          [(str "color", ⟨str "color", str "blue", false⟩)])
        [(str "color", ⟨str "color", str "blue", false⟩)] =
      MergeStyles [(str "color", ⟨str "color", str "red", true⟩)]
        [(str "color", ⟨str "color", str "blue", false⟩)] :=
  ⟨by decide,
   c9_merge_idempotent [(str "color", ⟨str "color", str "red", true⟩)]
     [(str "color", ⟨str "color", str "blue", false⟩)] (by decide)⟩

/-- C10: with `email_client_optimizations` on, the filter keeps an entry of
the winning map exactly when the per-property rule admits it — allow-listed
properties unconditionally, `position` only on profiles that do not require
inline styles, `float` unless the target client is `outlook`, `display` only
for the four allowed values, anything else only on profiles that do not
require inline styles — and with the flag off no filtering occurs. -/
theorem c10_email_safety_filter (cfg : Config) (styles : Styles) (p : Str)
    (d : Declaration) (comp : EmailClientCompatibility)
    (hnd : (keysA styles).Nodup) :
    (cfg.EmailClientOptimizations = false → filterEmailSafeStyles cfg styles = styles) ∧
    (cfg.EmailClientOptimizations = true →
      (lookupA p (filterEmailSafeStyles cfg styles) = some d ↔
        lookupA p styles = some d ∧
        keepFiltered cfg (GetCompatibilityProfile cfg.TargetEmailClient) p d = true)) ∧
    (IsEmailSafeProperty p = true → keepFiltered cfg comp p d = true) ∧
    (keepFiltered cfg comp (str "position") d = !comp.RequiresInlineStyles) ∧
    (keepFiltered cfg comp (str "float") d = decide (cfg.TargetEmailClient ≠ str "outlook")) ∧
    (keepFiltered cfg comp (str "display") d = displayAllowed d.Value) ∧
    (IsEmailSafeProperty p = false → p ≠ str "position" → p ≠ str "float" →
      p ≠ str "display" → keepFiltered cfg comp p d = !comp.RequiresInlineStyles) := by
  refine ⟨?_, ?_, ?_, ?_, ?_, ?_, ?_⟩
  · intro hflag
    simp [filterEmailSafeStyles, hflag]
  · intro hflag
    have hdef : filterEmailSafeStyles cfg styles =
        styles.filter (fun pd =>
          keepFiltered cfg (GetCompatibilityProfile cfg.TargetEmailClient) pd.1 pd.2) := by
      simp [filterEmailSafeStyles, hflag]
    rw [hdef]
    exact lookupA_filter
      (fun pd => keepFiltered cfg (GetCompatibilityProfile cfg.TargetEmailClient) pd.1 pd.2)
      styles hnd p d
  · intro hsafe
    simp [keepFiltered, hsafe]
  · have hsafe : IsEmailSafeProperty (str "position") = false := rfl
    simp [keepFiltered, hsafe]
  · have hsafe : IsEmailSafeProperty (str "float") = false := rfl
    have hne : str "float" ≠ str "position" := by decide
    simp [keepFiltered, hsafe, hne]
  · have hsafe : IsEmailSafeProperty (str "display") = false := rfl
    have hne1 : str "display" ≠ str "position" := by decide
    have hne2 : str "display" ≠ str "float" := by decide
    simp [keepFiltered, hsafe, hne1, hne2]
  · intro hsafe hne1 hne2 hne3
    simp [keepFiltered, hsafe, hne1, hne2, hne3]

/-- Witness for C10 at a concrete input: target `outlook`, a winning map
with a safe `color`, an unsafe `float` and a disallowed `display`; the
filter keeps `color` and drops `float`. -/
theorem c10_email_safety_filter_witness :
    (keysA ([(str "color", ⟨str "color", str "red", false⟩),
             (str "float", ⟨str "float", str "left", false⟩)] : Styles)).Nodup ∧
    (lookupA (str "color") (filterEmailSafeStyles
        ⟨true, true, false, true, true, true, str "outlook"⟩
        [(str "color", ⟨str "color", str "red", false⟩),
         (str "float", ⟨str "float", str "left", false⟩)]) =
      some ⟨str "color", str "red", false⟩) ∧
    keepFiltered ⟨true, true, false, true, true, true, str "outlook"⟩
      (GetCompatibilityProfile (str "outlook")) (str "float")
      ⟨str "float", str "left", false⟩ = decide ((str "outlook" : Str) ≠ str "outlook") :=
  ⟨by decide,
   ((c10_email_safety_filter ⟨true, true, false, true, true, true, str "outlook"⟩
      [(str "color", ⟨str "color", str "red", false⟩),
       (str "float", ⟨str "float", str "left", false⟩)]
      (str "color") ⟨str "color", str "red", false⟩
      (GetCompatibilityProfile (str "outlook")) (by decide)).2.1 rfl).2
     ⟨by decide, by decide⟩,
   (c10_email_safety_filter ⟨true, true, false, true, true, true, str "outlook"⟩
      [(str "color", ⟨str "color", str "red", false⟩),
       (str "float", ⟨str "float", str "left", false⟩)]
      (str "float") ⟨str "float", str "left", false⟩
      (GetCompatibilityProfile (str "outlook")) (by decide)).2.2.2.2.1⟩

theorem startsWithStr_self_append : ∀ (pat rest : Str), startsWithStr pat (pat ++ rest) = true
  | [], _ => rfl
  | c :: pat, rest => by
    simp [startsWithStr, startsWithStr_self_append pat rest]

/-- C5 amended: the `!important` marker is matched case-sensitively — for
every value of the shape `v ! ⟨ws⟩ important ⟨ws⟩` with the lowercase word
`important` and RE2 whitespace around it, the scanner sets `important=true`
and stores `TrimSpace(v)`; the uppercase variants of the original claim do
not match (see the counterexample). -/
theorem c5_lowercase_marker_stripped (v w1 w2 : Str)
    (h1 : ∀ c ∈ w1, reWS c = true) (h2 : ∀ c ∈ w2, reWS c = true) :
    applyImportantMarker (v ++ '!' :: (w1 ++ (importantWord ++ w2))) =
      (trimSpace v, true) := by
  have h1r : ∀ c ∈ w1.reverse, reWS c = true := fun c hc => h1 c (List.mem_reverse.1 hc)
  have h2r : ∀ c ∈ w2.reverse, reWS c = true := fun c hc => h2 c (List.mem_reverse.1 hc)
  have himp : importantWord.reverse = 't' :: str "natropmi" := by decide
  have hrev : (v ++ '!' :: (w1 ++ (importantWord ++ w2))).reverse =
      w2.reverse ++ (importantWord.reverse ++ (w1.reverse ++ ('!' :: v.reverse))) := by
    simp [List.reverse_append, List.append_assoc]
  have hd1 : (w2.reverse ++ (importantWord.reverse ++
      (w1.reverse ++ ('!' :: v.reverse)))).dropWhile reWS =
      importantWord.reverse ++ (w1.reverse ++ ('!' :: v.reverse)) := by
    rw [List.dropWhile_append_of_pos h2r, himp, List.cons_append,
      List.dropWhile_cons_of_neg (by decide)]
  have hd2 : ((importantWord.reverse ++ (w1.reverse ++ ('!' :: v.reverse))).drop
      importantWord.length) = w1.reverse ++ ('!' :: v.reverse) := by
    apply List.drop_left'
    rw [List.length_reverse]
  have hd3 : (w1.reverse ++ ('!' :: v.reverse)).dropWhile reWS = '!' :: v.reverse := by
    rw [List.dropWhile_append_of_pos h1r, List.dropWhile_cons_of_neg (by decide)]
  have hmatch : matchImportantValue (v ++ '!' :: (w1 ++ (importantWord ++ w2))) = true := by
    simp only [matchImportantValue, matchImportantRev]
    rw [hrev, hd1, startsWithStr_self_append, if_pos rfl, hd2, hd3]
    simp
  have hstrip : stripImportantValue (v ++ '!' :: (w1 ++ (importantWord ++ w2))) = v := by
    simp only [stripImportantValue]
    rw [hrev, hd1, hd2, hd3]
    simp
  simp only [applyImportantMarker, hmatch, if_true, hstrip]

/-- Witness for the amended C5 at a concrete input:
`red! important` parses to value `red` with `important=true`. -/
theorem c5_lowercase_marker_stripped_witness :
    (∀ c ∈ ([' '] : Str), reWS c = true) ∧
    applyImportantMarker (str "red" ++ '!' :: ([' '] ++ (importantWord ++ []))) =
      (trimSpace (str "red"), true) :=
  ⟨by decide, c5_lowercase_marker_stripped (str "red") [' '] [] (by decide) (by decide)⟩

theorem commentFold_no_slash :
    ∀ (s : Str) (out : Str), ¬ '/' ∈ s →
      s.foldl commentStep ⟨out, false, false, false, []⟩ =
        ⟨s.reverse ++ out, false, false, false, []⟩
  | [], out, _ => by simp
  | c :: rest, out, h => by
    have hc : ¬ c = '/' := fun hc => h (hc ▸ List.mem_cons_self c rest)
    have hstep : commentStep ⟨out, false, false, false, []⟩ c =
        ⟨c :: out, false, false, false, []⟩ := by
      simp [commentStep, hc]
    rw [List.foldl_cons, hstep,
      commentFold_no_slash rest (c :: out) (fun hm => h (List.mem_cons_of_mem _ hm))]
    simp

theorem removeComments_no_slash (s : Str) (h : ¬ '/' ∈ s) : removeComments s = s := by
  unfold removeComments
  rw [commentFold_no_slash s [] h]
  simp

theorem extractAtRulesFuel_no_at :
    ∀ (fuel : Nat) (s : Str), ¬ '@' ∈ s → extractAtRulesFuel fuel s = s
  | 0, s, _ => by cases s <;> rfl
  | _ + 1, [], _ => rfl
  | fuel + 1, c :: rest, h => by
    have hc : ¬ c = '@' := fun hc => h (hc ▸ List.mem_cons_self c rest)
    simp only [extractAtRulesFuel, if_neg hc]
    rw [extractAtRulesFuel_no_at fuel rest (fun hm => h (List.mem_cons_of_mem _ hm))]

theorem extractAtRules_no_at (s : Str) (h : ¬ '@' ∈ s) : extractAtRules s = s :=
  extractAtRulesFuel_no_at s.length s h

theorem ruleScanSel :
    ∀ (s : Str) (pairs : List (Str × Str)) (selAcc bodyAcc : Str), ¬ '\x7b' ∈ s →
      s.foldl ruleScanStep ⟨pairs, selAcc, bodyAcc, false⟩ =
        ⟨pairs, s.reverse ++ selAcc, bodyAcc, false⟩
  | [], _, _, _, _ => by simp
  | c :: rest, pairs, selAcc, bodyAcc, h => by
    have hc : ¬ c = '\x7b' := fun hc => h (hc ▸ List.mem_cons_self c rest)
    have hstep : ruleScanStep ⟨pairs, selAcc, bodyAcc, false⟩ c =
        ⟨pairs, c :: selAcc, bodyAcc, false⟩ := by
      simp [ruleScanStep, hc]
    rw [List.foldl_cons, hstep,
      ruleScanSel rest pairs (c :: selAcc) bodyAcc (fun hm => h (List.mem_cons_of_mem _ hm))]
    simp

theorem ruleScanBody :
    ∀ (s : Str) (pairs : List (Str × Str)) (selAcc bodyAcc : Str), ¬ '\x7d' ∈ s →
      s.foldl ruleScanStep ⟨pairs, selAcc, bodyAcc, true⟩ =
        ⟨pairs, selAcc, s.reverse ++ bodyAcc, true⟩
  | [], _, _, _, _ => by simp
  | c :: rest, pairs, selAcc, bodyAcc, h => by
    have hc : ¬ c = '\x7d' := fun hc => h (hc ▸ List.mem_cons_self c rest)
    have hstep : ruleScanStep ⟨pairs, selAcc, bodyAcc, true⟩ c =
        ⟨pairs, selAcc, c :: bodyAcc, true⟩ := by
      simp [ruleScanStep, hc]
    rw [List.foldl_cons, hstep,
      ruleScanBody rest pairs selAcc (c :: bodyAcc) (fun hm => h (List.mem_cons_of_mem _ hm))]
    simp

theorem scanRulePairs_single (sel body : Str) (hsel : sel ≠ [])
    (hs1 : ¬ '\x7b' ∈ sel) (hs2 : ¬ '\x7d' ∈ body) :
    scanRulePairs (sel ++ '\x7b' :: (body ++ ['\x7d'])) = [(sel, body)] := by
  unfold scanRulePairs
  rw [List.foldl_append, ruleScanSel sel [] [] [] hs1]
  rw [List.foldl_cons]
  have hstep1 : ruleScanStep ⟨[], sel.reverse ++ [], [], false⟩ '\x7b' =
      ⟨[], sel.reverse ++ [], [], true⟩ := by
    simp [ruleScanStep, hsel]
  rw [hstep1, List.foldl_append, ruleScanBody body [] (sel.reverse ++ []) [] hs2]
  have hstep2 : List.foldl ruleScanStep
      ⟨[], sel.reverse ++ [], body.reverse ++ [], true⟩ ['\x7d'] =
      ⟨[((sel.reverse ++ []).reverse, (body.reverse ++ []).reverse)], [], [], false⟩ := by
    simp [ruleScanStep]
  rw [hstep2]
  simp

/-- C4 amended: the parser does not split selectors on commas — every
selector-and-block pair yields exactly one `Rule` carrying the full trimmed
selector text, commas included, with the shared declaration block (the
hypotheses keep the pair free of braces, body semicolons aside, and of the
comment/at-rule pre-processing triggers). -/
theorem c4_one_rule_per_pair (sel body : Str)
    (hs1 : ¬ '\x7b' ∈ sel) (hs2 : ¬ '\x7d' ∈ body)
    (hs3 : trimSpace sel ≠ []) (hs4 : trimSpace body ≠ [])
    (hs5 : ¬ '/' ∈ sel) (hs6 : ¬ '/' ∈ body)
    (hs7 : ¬ '@' ∈ sel) (hs8 : ¬ '@' ∈ body) :
    Parse (sel ++ '\x7b' :: (body ++ ['\x7d'])) =
      ⟨[⟨trimSpace sel, calculateSpecificity (trimSpace sel),
         parseDeclarations (trimSpace body), 0⟩]⟩ := by
  have hselne : sel ≠ [] := by
    intro hc
    exact hs3 (by simp [hc, trimSpace, rdropWhile])
  have hslash : ¬ '/' ∈ sel ++ '\x7b' :: (body ++ ['\x7d']) := by
    intro hc
    simp only [List.mem_append, List.mem_cons, List.mem_singleton] at hc
    rcases hc with hc | hc | hc | hc | hc
    · exact hs5 hc
    · exact absurd hc (by decide)
    · exact hs6 hc
    · exact absurd hc (by decide)
    · exact absurd hc (List.not_mem_nil _)
  have hat : ¬ '@' ∈ sel ++ '\x7b' :: (body ++ ['\x7d']) := by
    intro hc
    simp only [List.mem_append, List.mem_cons, List.mem_singleton] at hc
    rcases hc with hc | hc | hc | hc | hc
    · exact hs7 hc
    · exact absurd hc (by decide)
    · exact hs8 hc
    · exact absurd hc (by decide)
    · exact absurd hc (List.not_mem_nil _)
  unfold Parse
  rw [removeComments_no_slash _ hslash, extractAtRules_no_at _ hat,
    scanRulePairs_single sel body hselne hs1 hs2]
  simp [buildRules, hs3, hs4]

/-- Witness for the amended C4 at a concrete input: the comma-containing
selector `h1, h2` yields one rule with the comma retained. -/
theorem c4_one_rule_per_pair_witness :
    (¬ '\x7b' ∈ str "h1, h2") ∧
    Parse (str "h1, h2" ++ '\x7b' :: (str "color:red" ++ ['\x7d'])) =
      ⟨[⟨trimSpace (str "h1, h2"), calculateSpecificity (trimSpace (str "h1, h2")),
         parseDeclarations (trimSpace (str "color:red")), 0⟩]⟩ :=
  ⟨by decide,
   c4_one_rule_per_pair (str "h1, h2") (str "color:red") (by decide) (by decide)
     (by decide) (by decide) (by decide) (by decide) (by decide) (by decide)⟩

theorem warningsFor_property (cfg : Config) (comp : EmailClientCompatibility)
    (p : Str) (d : Declaration) (w : ValidationWarning)
    (h : w ∈ warningsFor cfg comp p d) : w.Property = p := by
  unfold warningsFor at h
  rcases List.mem_append.1 h with h | h
  · split_ifs at h <;> simp_all
  · split_ifs at h <;> simp_all

theorem mem_validateFold (cfg : Config) (comp : EmailClientCompatibility) :
    ∀ (s : Styles) (acc : List ValidationWarning) (w : ValidationWarning),
      (w ∈ s.foldl (fun ws pd => ws ++ warningsFor cfg comp pd.1 pd.2) acc ↔
        w ∈ acc ∨ ∃ pd ∈ s, w ∈ warningsFor cfg comp pd.1 pd.2)
  | [], acc, w => by
    rw [List.foldl_nil]
    constructor
    · exact Or.inl
    · rintro (h | ⟨pd, hpd, _⟩)
      · exact h
      · cases hpd
  | pd :: rest, acc, w => by
    rw [List.foldl_cons,
      mem_validateFold cfg comp rest (acc ++ warningsFor cfg comp pd.1 pd.2) w]
    simp only [List.mem_append]
    constructor
    · rintro ((h | h) | ⟨pd', hpd', hw⟩)
      · exact Or.inl h
      · exact Or.inr ⟨pd, by simp, h⟩
      · exact Or.inr ⟨pd', by simp [hpd'], hw⟩
    · rintro (h | ⟨pd', hpd', hw⟩)
      · exact Or.inl (Or.inl h)
      · rcases List.mem_cons.1 hpd' with rfl | hpd'
        · exact Or.inl (Or.inr hw)
        · exact Or.inr ⟨pd', hpd', hw⟩

theorem validateStyles_property (cfg : Config) (s : Styles) (w : ValidationWarning)
    (h : w ∈ ValidateStyles cfg s) : w.Property ∈ keysA s := by
  unfold ValidateStyles at h
  rcases (mem_validateFold cfg _ s [] w).1 h with h | ⟨pd, hpd, hw⟩
  · cases h
  · rw [warningsFor_property cfg _ pd.1 pd.2 w hw]
    exact fst_mem_keysA pd s hpd

theorem not_mem_keysA_filter {α : Type} (P : Str × α → Bool) (q : Str)
    (hP : ∀ v, P (q, v) = false) : ∀ l : List (Str × α), ¬ q ∈ keysA (l.filter P) := by
  intro l
  induction l with
  | nil => simp
  | cons kv rest ih =>
    obtain ⟨k, v⟩ := kv
    intro h
    by_cases hk : k = q
    · subst hk
      rw [List.filter_cons_of_neg (by simp [hP v])] at h
      exact ih h
    · cases hPk : P (k, v) with
      | false =>
        rw [List.filter_cons_of_neg (by simp [hPk])] at h
        exact ih h
      | true =>
        rw [List.filter_cons_of_pos hPk, keysA_cons] at h
        rcases List.mem_cons.1 h with h | h
        · exact hk h.symm
        · exact ih h

theorem mem_keysA_insertAll {α : Type} :
    ∀ (e : List (Str × α)) (acc : List (Str × α)) (q : Str),
      (q ∈ keysA (e.foldl (fun acc2 pd => insertA pd.1 pd.2 acc2) acc) ↔
        q ∈ keysA e ∨ q ∈ keysA acc)
  | [], acc, q => by simp
  | pd :: rest, acc, q => by
    rw [List.foldl_cons, mem_keysA_insertAll rest (insertA pd.1 pd.2 acc) q,
      mem_keysA_insertA, keysA_cons']
    simp only [List.mem_cons]
    tauto

/-- C2 amended: for target `outlook` with `email_client_optimizations` on,
a winning non-email-safe `float` declaration is dropped from the styles
written to the element (provided the element's own style attribute carried
no `float`), but — contrary to the original claim — no ValidationWarning is
emitted for the filtered `float`: validation runs on the already-filtered,
merged map, whose every warning names a property of that map. -/
theorem c2_float_dropped_without_warning (cfg : Config)
    (ms : List MatchResult) (inl : Styles)
    (hopt : cfg.EmailClientOptimizations = true)
    (htarget : cfg.TargetEmailClient = str "outlook")
    (hinl : ¬ str "float" ∈ keysA inl) :
    ¬ str "float" ∈ keysA (processElement cfg ms inl).1 ∧
    ∀ w ∈ (processElement cfg ms inl).2, w.Property ≠ str "float" := by
  have hkeep : ∀ d : Declaration,
      keepFiltered cfg (GetCompatibilityProfile cfg.TargetEmailClient) (str "float") d =
        false := by
    intro d
    have hsafe : IsEmailSafeProperty (str "float") = false := rfl
    have hne : str "float" ≠ str "position" := by decide
    simp [keepFiltered, hsafe, hne, htarget]
  have hcomp : ¬ str "float" ∈ keysA (ResolveStyles cfg ms inl) := by
    unfold ResolveStyles filterEmailSafeStyles
    rw [hopt]
    simp only [if_true, Bool.not_true, Bool.false_eq_true, if_false]
    exact not_mem_keysA_filter _ _ (fun v => hkeep v) (applyCascade ms inl)
  by_cases hc : (ResolveStyles cfg ms inl).length = 0
  · have hpe : processElement cfg ms inl = (inl, []) := by
      simp [processElement, hc]
    rw [hpe]
    exact ⟨hinl, by simp⟩
  · have hpe : processElement cfg ms inl =
        (MergeStyles inl (ResolveStyles cfg ms inl),
         ValidateStyles cfg (MergeStyles inl (ResolveStyles cfg ms inl))) := by
      simp [processElement, hc]
    rw [hpe]
    have hm : ¬ str "float" ∈ keysA (MergeStyles inl (ResolveStyles cfg ms inl)) := by
      intro h
      rcases (mem_keysA_mergeFold (ResolveStyles cfg ms inl) _ (str "float")).1 h with h | h
      · exact hcomp h
      · rcases (mem_keysA_insertAll inl [] (str "float")).1 h with h | h
        · exact hinl h
        · simp at h
    exact ⟨hm, fun w hw hc2 => hm (hc2 ▸ validateStyles_property cfg _ w hw)⟩

/-- Witness for the amended C2 at the spec's scenario: target `outlook`,
stylesheet `.x \x7b float:left; color:red \x7d`, no pre-existing inline styles. -/
theorem c2_float_dropped_without_warning_witness :
    (¬ str "float" ∈ keysA ([] : Styles)) ∧
    (¬ str "float" ∈ keysA (processElement ⟨true, true, false, true, true, true, str "outlook"⟩
        (matchResultsOf (Parse (str ".x\x7bfloat:left;color:red\x7d")).Rules) []).1 ∧
     ∀ w ∈ (processElement ⟨true, true, false, true, true, true, str "outlook"⟩
        (matchResultsOf (Parse (str ".x\x7bfloat:left;color:red\x7d")).Rules) []).2,
       w.Property ≠ str "float") :=
  ⟨by simp, c2_float_dropped_without_warning
    ⟨true, true, false, true, true, true, str "outlook"⟩
    (matchResultsOf (Parse (str ".x\x7bfloat:left;color:red\x7d")).Rules) []
    rfl rfl (by simp)⟩

theorem keysA_eq_map {α : Type} : ∀ l : List (Str × α), keysA l = l.map Prod.fst
  | [] => rfl
  | (k, v) :: rest => by simp [keysA_eq_map rest]

theorem lookupA_perm {α : Type} (q : Str) :
    ∀ {l1 l2 : List (Str × α)}, l1.Perm l2 → (keysA l1).Nodup →
      lookupA q l1 = lookupA q l2 := by
  intro l1 l2 hp
  induction hp with
  | nil => intro _; rfl
  | cons x hp ih =>
    intro hnd
    obtain ⟨k, v⟩ := x
    have hnd' := (List.nodup_cons.1 (by simpa using hnd)).2
    by_cases hk : k = q
    · simp [lookupA, hk]
    · simp [lookupA, hk, ih hnd']
  | swap x y l =>
    intro hnd
    obtain ⟨kx, vx⟩ := x
    obtain ⟨ky, vy⟩ := y
    have hne : ky ≠ kx := by
      simp only [keysA_cons, List.nodup_cons, List.mem_cons] at hnd
      exact fun hc => hnd.1 (Or.inl hc)
    by_cases h1 : ky = q
    · subst h1
      have : kx ≠ ky := fun hc => hne hc.symm
      simp [lookupA, this]
    · by_cases h2 : kx = q <;> simp [lookupA, h1, h2]
  | trans hp1 hp2 ih1 ih2 =>
    intro hnd
    refine (ih1 hnd).trans (ih2 ?_)
    rw [keysA_eq_map] at hnd ⊢
    exact hnd.perm (hp1.map Prod.fst)

theorem sortStrings_congr (l1 l2 : List Str) (h : l1.Perm l2) :
    sortStrings l1 = sortStrings l2 := by
  unfold sortStrings
  have hs1 := List.sorted_insertionSort (fun a b : Str => a ≤ b) l1
  have hs2 := List.sorted_insertionSort (fun a b : Str => a ≤ b) l2
  exact List.eq_of_perm_of_sorted
    ((List.perm_insertionSort _ l1).trans (h.trans (List.perm_insertionSort _ l2).symm))
    hs1 hs2

/-- C6 amended: the resolver's `StylesString` is deterministic — sorted by
property name ascending, `property: value[ !important]` entries joined with
`"; "`, and the empty map giving the empty string — so any two enumerations
of equal maps serialize identically; but this does not extend to
`formatStyleString`, the serialization used when writing the style attribute
back to an element, which emits entries in the unspecified map iteration
order (see the counterexample). -/
theorem c6_styles_string_deterministic (l1 l2 : Styles)
    (hp : l1.Perm l2) (hnd : (keysA l1).Nodup) :
    StylesString l1 = StylesString l2 ∧ StylesString ([] : Styles) = [] := by
  refine ⟨?_, rfl⟩
  unfold StylesString
  have hlen : l1.length = l2.length := hp.length_eq
  by_cases h0 : l1.length = 0
  · rw [if_pos h0, if_pos (by omega)]
  · rw [if_neg h0, if_neg (by omega)]
    have hkeys : (keysA l1).Perm (keysA l2) := by
      rw [keysA_eq_map, keysA_eq_map]
      exact hp.map Prod.fst
    rw [← sortStrings_congr _ _ hkeys]
    refine congrArg (List.intercalate (str "; ")) (List.map_congr_left ?_)
    intro p _
    unfold renderDecl
    rw [lookupA_perm p hp hnd]

/-- Witness for the amended C6 at a concrete input: two enumerations of the
same two-entry map serialize to the same sorted string under `StylesString`. -/
theorem c6_styles_string_deterministic_witness :
    ([(str "width", ⟨str "width", str "10px", false⟩),
      (str "color", ⟨str "color", str "red", true⟩)] : Styles).Perm
      ([(str "color", ⟨str "color", str "red", true⟩),
        (str "width", ⟨str "width", str "10px", false⟩)] : Styles) ∧
    StylesString [(str "width", ⟨str "width", str "10px", false⟩),
                  (str "color", ⟨str "color", str "red", true⟩)] =
      StylesString [(str "color", ⟨str "color", str "red", true⟩),
                    (str "width", ⟨str "width", str "10px", false⟩)] :=
  ⟨List.Perm.swap _ _ _,
   (c6_styles_string_deterministic
      [(str "width", ⟨str "width", str "10px", false⟩),
       (str "color", ⟨str "color", str "red", true⟩)]
      [(str "color", ⟨str "color", str "red", true⟩),
       (str "width", ⟨str "width", str "10px", false⟩)]
      (List.Perm.swap _ _ _) (by decide)).1⟩

end Inliner
